import Mathlib

/-!
Shallow embedding of the EDF reader/writer of `wonambi/ioeeg/edf.py`.

Files are modelled as lists of bytes (`List Nat`, each entry < 256 in
practice).  Python text fields are kept as stripped byte lists (the writer
emits only ASCII, and `bytes.decode('utf-8')` is the identity on ASCII, so
decoding is modelled as the identity on bytes).  Python floats are modelled
as rationals; `int16` values as `Int` with explicit wrap-around modulo
2^16 where the code casts.  Fallible code returns `Option` or `Except`.
-/

set_option allowUnsafeReducibility true
set_option synthInstance.maxSize 1024
attribute [semireducible] Rat.add Rat.mul Rat.sub Rat.inv

namespace Wonambi

/-- Source constants: EDF stores `int16`; `DIGITAL_MIN = -iinfo(int16).max`
so that digital 0 equals physical 0. -/
def DIGITAL_MAX : Int := 32767

/-- Source constant `DIGITAL_MIN = -1 * edf_iinfo.max`. -/
def DIGITAL_MIN : Int := -32767

/-- Python `str.strip` / `bytes.strip` whitespace set. -/
def isPySpace (b : Nat) : Bool :=
  b == 32 || b == 9 || b == 10 || b == 11 || b == 12 || b == 13

/-- Model of Python `strip()` on a byte string. -/
def pyStrip (l : List Nat) : List Nat :=
  ((l.dropWhile isPySpace).reverse.dropWhile isPySpace).reverse

/-- Is the byte an ASCII digit. -/
def isDigitByte (b : Nat) : Bool := 48 ≤ b && b ≤ 57

/-- Value of a list of ASCII digit bytes read in base 10. -/
def digitsToNat (l : List Nat) : Nat :=
  l.foldl (fun a b => a * 10 + (b - 48)) 0

/-- Model of Python `int()` applied to a fixed-width ASCII field:
whitespace is stripped, an optional sign is allowed, and the remainder must
be a nonempty run of digits; anything else raises `ValueError` (`none`). -/
def parsePyInt (l : List Nat) : Option Int :=
  match pyStrip l with
  | 43 :: rest =>
      if rest ≠ [] ∧ rest.all isDigitByte then some (digitsToNat rest) else none
  | 45 :: rest =>
      if rest ≠ [] ∧ rest.all isDigitByte then some (-(digitsToNat rest : Int)) else none
  | t => if t ≠ [] ∧ t.all isDigitByte then some (digitsToNat t) else none

/-- Digits with an optional decimal point, as a rational: accepts the forms
`123`, `123.`, `123.45` and `.45` that Python `float()` accepts (the
exponent forms, which the EDF writer never emits, are not modelled). -/
def parseUnsignedFloat (t : List Nat) : Option ℚ :=
  match t.splitOn 46 with
  | [ip] =>
      if ip ≠ [] ∧ ip.all isDigitByte then some (digitsToNat ip : ℚ) else none
  | [ip, fp] =>
      if (ip ≠ [] ∨ fp ≠ []) ∧ ip.all isDigitByte ∧ fp.all isDigitByte then
        some ((digitsToNat ip : ℚ) +
          (digitsToNat fp : ℚ) / ((10 ^ fp.length : ℕ) : ℚ))
      else none
  | _ => none

/-- Model of Python `float()` applied to a fixed-width ASCII field. -/
def parsePyFloat (l : List Nat) : Option ℚ :=
  match pyStrip l with
  | 43 :: rest => parseUnsignedFloat rest
  | 45 :: rest => (parseUnsignedFloat rest).map (fun q => -q)
  | t => parseUnsignedFloat t

/-- Maximal consecutive runs of ASCII digits, as produced by the
`re.findall` digit-run pattern used on the date and time fields. -/
def digitRuns : List Nat → List (List Nat)
  | [] => []
  | b :: rest =>
      let tail := digitRuns rest
      if isDigitByte b then
        match tail, rest with
        | r :: rs, c :: _ =>
            if isDigitByte c then (b :: r) :: rs else [b] :: (r :: rs)
        | _, _ => [b] :: tail
      else tail

/-- Python `datetime` timestamp (microseconds are never produced here). -/
structure PyDateTime where
  year : Nat
  month : Nat
  day : Nat
  hour : Nat
  minute : Nat
  second : Nat
deriving DecidableEq, Repr

/-- Gregorian leap year. -/
def isLeapYear (y : Nat) : Bool :=
  (y % 4 == 0 && y % 100 != 0) || y % 400 == 0

/-- Days in a month of the proleptic Gregorian calendar. -/
def daysInMonth (y m : Nat) : Nat :=
  if m = 2 then (if isLeapYear y then 29 else 28)
  else if m = 4 ∨ m = 6 ∨ m = 9 ∨ m = 11 then 30
  else 31

/-- Arguments accepted by the `datetime` constructor (which the header
parser calls and which raises on invalid components). -/
def datetimeValid (y mo d h mi s : Nat) : Bool :=
  1 ≤ y && y ≤ 9999 && 1 ≤ mo && mo ≤ 12 && 1 ≤ d && d ≤ daysInMonth y mo &&
  h ≤ 23 && mi ≤ 59 && s ≤ 59

/-- Source lines 69-73: the Y2K cutoff applied to the two-digit year read
from the header, 1985 being the boundary. -/
def normalizeYear (year : Nat) : Nat :=
  if 85 ≤ year then year + 1900 else year + 2000

/-- Parse the two 8-byte date and time header fields exactly as the source
does: the digit-run findall must give three runs in each field (the tuple
unpacking fails otherwise), the year goes through the Y2K cutoff, and the
`datetime` constructor validates the components. -/
def parseStartTime (dateF timeF : List Nat) : Option PyDateTime :=
  match digitRuns dateF, digitRuns timeF with
  | [dR, moR, yR], [hR, miR, sR] =>
      let day := digitsToNat dR
      let month := digitsToNat moR
      let year := normalizeYear (digitsToNat yR)
      let hour := digitsToNat hR
      let minute := digitsToNat miR
      let sec := digitsToNat sR
      if datetimeValid year month day hour minute sec then
        some ⟨year, month, day, hour, minute, sec⟩
      else none
  | _, _ => none

/-- File reading state: the whole file plus the current position.  Python
`f.read(n)` returns the available bytes (possibly fewer than `n`) and
advances by as many; `f.seek` may move past the end of file. -/
structure RS where
  bytes : List Nat
  pos : Nat

/-- Model of `f.read n`. -/
def rsRead (s : RS) (n : Nat) : List Nat × RS :=
  let chunk := (s.bytes.drop s.pos).take n
  (chunk, ⟨s.bytes, s.pos + chunk.length⟩)

/-- Model of `f.seek(n, 1)` (relative seek, may pass the end of file). -/
def rsSeekRel (s : RS) (n : Nat) : RS := ⟨s.bytes, s.pos + n⟩

/-- Read `n` consecutive fields of `w` bytes each. -/
def rsReadN (s : RS) (w : Nat) : Nat → List (List Nat) × RS
  | 0 => ([], s)
  | n + 1 =>
      let (chunk, s1) := rsRead s w
      let (rest, s2) := rsReadN s1 w n
      (chunk :: rest, s2)

/-- Disorganized header dictionary built by `Edf._read_hdr`. -/
structure Hdr where
  subject_id : List Nat
  recording_id : List Nat
  start_time : PyDateTime
  header_n_bytes : Int
  n_records : Int
  record_length : ℚ
  n_channels : Int
  label : List (List Nat)
  transducer : List (List Nat)
  physical_dim : List (List Nat)
  physical_min : List ℚ
  physical_max : List ℚ
  digital_min : List ℚ
  digital_max : List ℚ
  prefiltering : List (List Nat)
  n_samples_per_record : List Int
deriving DecidableEq, Repr

/-- The 8-byte EDF version marker, ASCII `0` followed by seven spaces. -/
def versionMarker : List Nat := [48, 32, 32, 32, 32, 32, 32, 32]

/-- All the reads of `Edf._read_hdr` in order, returning the header and the
final file position (the value of `f.tell()` before the last assert);
`none` models any exception raised while a field is read or converted. -/
def parseHdrAux (bytes : List Nat) : Option (Hdr × Nat) := do
  let s0 : RS := ⟨bytes, 0⟩
  let (marker, s1) := rsRead s0 8
  if marker ≠ versionMarker then none else do
  let (subj, s2) := rsRead s1 80
  let (recid, s3) := rsRead s2 80
  let (dateF, s4) := rsRead s3 8
  let (timeF, s5) := rsRead s4 8
  let startTime ← parseStartTime dateF timeF
  let (hnbF, s6) := rsRead s5 8
  let hnb ← parsePyInt hnbF
  let s7 := rsSeekRel s6 44
  let (nrecF, s8) := rsRead s7 8
  let nrec ← parsePyInt nrecF
  let (rlenF, s9) := rsRead s8 8
  let rlen ← parsePyFloat rlenF
  let (nchF, s10) := rsRead s9 4
  let nchI ← parsePyInt nchF
  let nch := nchI.toNat
  let (labelF, s11) := rsReadN s10 16 nch
  let (transF, s12) := rsReadN s11 80 nch
  let (pdimF, s13) := rsReadN s12 8 nch
  let (pminF, s14) := rsReadN s13 8 nch
  let pmin ← pminF.mapM parsePyFloat
  let (pmaxF, s15) := rsReadN s14 8 nch
  let pmax ← pmaxF.mapM parsePyFloat
  let (dminF, s16) := rsReadN s15 8 nch
  let dmin ← dminF.mapM parsePyFloat
  let (dmaxF, s17) := rsReadN s16 8 nch
  let dmax ← dmaxF.mapM parsePyFloat
  let (prefF, s18) := rsReadN s17 80 nch
  let (nsprF, s19) := rsReadN s18 8 nch
  let nspr ← nsprF.mapM parsePyInt
  let s20 := rsSeekRel s19 (32 * nch)
  some (⟨pyStrip subj, pyStrip recid, startTime, hnb, nrec, rlen, nchI,
         labelF.map pyStrip, transF.map pyStrip, pdimF.map pyStrip,
         pmin, pmax, dmin, dmax, prefF.map pyStrip, nspr⟩, s20.pos)

/-- `Edf._read_hdr`: all field reads followed by the final consistency
assert `f.tell() == hdr['header_n_bytes']`. -/
def readHdr (bytes : List Nat) : Option Hdr :=
  match parseHdrAux bytes with
  | some (h, pos) => if (pos : Int) = h.header_n_bytes then some h else none
  | none => none

/-- The calibration attributes that `Edf.return_hdr` stores on the object
(`self.max_smp`, `self.smp_in_blk`, `self.dig_min`, `self.phys_min`,
`self.gain`). -/
structure Calib where
  max_smp : Int
  smp_in_blk : Int
  dig_min : List ℚ
  phys_min : List ℚ
  gain : List ℚ
deriving DecidableEq, Repr

/-- An `Edf` object: after `__init__` only `hdr` is set; the calibration
attributes appear once `return_hdr` has run (`none` models their absence,
whose access raises `AttributeError`). -/
structure Edf where
  hdr : Hdr
  calib : Option Calib
deriving DecidableEq, Repr

/-- A freshly constructed `Edf` (its `__init__` only parses the header). -/
def mkEdf (h : Hdr) : Edf := ⟨h, none⟩

/-- `Edf.return_hdr`: computes and stores the layout and calibration
attributes, asserts that the physical and digital ranges are positive, and
returns the header tuple.  `none` models the `ValueError` of `max` on an
empty list and the two range asserts. -/
def return_hdr (e : Edf) :
    Option (Edf × (List Nat × PyDateTime × ℚ × List (List Nat) × Int)) :=
  match e.hdr.n_samples_per_record.max? with
  | none => none
  | some mx =>
      let physRange := e.hdr.physical_max.zipWith (fun a b => a - b) e.hdr.physical_min
      let digRange := e.hdr.digital_max.zipWith (fun a b => a - b) e.hdr.digital_min
      if (∀ q ∈ physRange, 0 < q) ∧ (∀ q ∈ digRange, 0 < q) then
        let gain := physRange.zipWith (fun p d => p / d) digRange
        let c : Calib := ⟨mx, e.hdr.n_samples_per_record.sum,
                          e.hdr.digital_min, e.hdr.physical_min, gain⟩
        some (⟨e.hdr, some c⟩,
              (e.hdr.subject_id, e.hdr.start_time,
               (mx : ℚ) / e.hdr.record_length, e.hdr.label,
               mx * e.hdr.n_records))
      else none

/-- Byte of the file at a position (files are never indexed out of range
under the well-formedness hypotheses of the theorems below). -/
def byteAt (file : List Nat) (p : Nat) : Nat := file.getD p 0

/-- The little-endian `int16` stored at byte position `p`. -/
def int16At (file : List Nat) (p : Nat) : Int :=
  let v := byteAt file p + 256 * byteAt file (p + 1)
  if 32768 ≤ v then (v : Int) - 65536 else (v : Int)

/-- `fromfile(f, count := n, dtype int16)` starting at byte `off`. -/
def int16Run (file : List Nat) (off n : Nat) : List Int :=
  (List.range n).map (fun k => int16At file (off + 2 * k))

/-- `numpy.repeat(xs, r)`: every element repeated `r` times consecutively. -/
def repeatElems (xs : List Int) (r : Nat) : List Int :=
  (xs.map (fun x => List.replicate r x)).flatten

/-- `Edf._read_record`: for each requested channel, seek to
`header_n_bytes + smp_in_blk * blk + ch_in_rec` — the byte offset the
source computes, in which the two sample terms are sample counts and are
NOT multiplied by the 2 bytes an `int16` occupies — read that channel count
of `int16` values and upsample them by integer repetition. -/
def read_record (file : List Nat) (e : Edf) (c : Calib) (blk : Nat)
    (chans : List Nat) : List (List Int) :=
  chans.map (fun i_ch =>
    let ch_in_rec : Int := (e.hdr.n_samples_per_record.take i_ch).sum
    let n : Int := e.hdr.n_samples_per_record.getD i_ch 0
    let ratio : Int := c.max_smp.tdiv n
    let off : Int := e.hdr.header_n_bytes + c.smp_in_blk * (blk : Int) + ch_in_rec
    repeatElems (int16Run file off.toNat n.toNat) ratio.toNat)

/-- Modelled from the spec: the windowing helper `_select_blocks` lives in
`wonambi/ioeeg/utils.py`, which is not among the source files; following
the spec, it resolves the global sample range `[begsam, endsam)` against
the block boundaries, producing an ordered sequence of
(destination-range, block-index, within-block-range) triples that
collectively and disjointly cover the request, handling partial leading
and trailing blocks and multi-block spans.  `off` is the global sample
position where block `k` starts. -/
def select_blocks_aux : List Nat → Nat → Nat → Nat → Nat →
    List ((Nat × Nat) × Nat × (Nat × Nat))
  | [], _, _, _, _ => []
  | sz :: rest, k, off, begsam, endsam =>
      let lo := max off begsam
      let hi := min (off + sz) endsam
      (if lo < hi then [((lo - begsam, hi - begsam), k, (lo - off, hi - off))] else [])
        ++ select_blocks_aux rest (k + 1) (off + sz) begsam endsam

/-- Modelled from the spec: `_select_blocks` applied to the block-size list
with blocks starting at index 0 and global sample offset 0. -/
def select_blocks (blocks : List Nat) (begsam endsam : Nat) :
    List ((Nat × Nat) × Nat × (Nat × Nat)) :=
  select_blocks_aux blocks 0 0 begsam endsam

/-- Write the samples `xs` into `row` starting at destination column `d0`
(the numpy slice assignment into the NaN-filled matrix row). -/
def fillRow (row : List (Option Int)) (d0 : Nat) (xs : List Int) :
    List (Option Int) :=
  row.take d0 ++ xs.map some ++ row.drop (d0 + xs.length)

/-- One iteration of the `for i_dat, blk, i_blk in _select_blocks(...)`
loop: read the record of block `t.2.1` and copy the within-block column
range into the destination column range of every requested channel row. -/
def fillTriple (file : List Nat) (e : Edf) (c : Calib) (chans : List Nat)
    (M : List (List (Option Int))) (t : (Nat × Nat) × Nat × (Nat × Nat)) :
    List (List (Option Int)) :=
  let recRows := read_record file e c t.2.1 chans
  (M.zip recRows).map (fun p =>
    fillRow p.1 t.1.1 ((p.2.drop t.2.2.1).take (t.1.2 - t.1.1)))

/-- `Edf.return_dat`: NaN-fill the destination matrix (`none` is NaN),
copy the selected block slices, then apply the per-channel calibration
`(digital - dig_min) * gain + phys_min`.  Errors, in source order: the
`begsam < endsam` assert raises first; then `max` of an empty per-record
list raises `ValueError` at line 209; then the first access to an
attribute that only `return_hdr` assigns (`self.max_smp` inside
`_read_record`, or `self.dig_min` at the calibration line when the loop
body never runs) raises `AttributeError`; `IndexError` for an
out-of-range channel index; `ValueError` for the numpy shape mismatch
when a channel count does not divide `max_smp` (the source raises the
last two inside the loop at the first offending record; the model checks
them up front). -/
def return_dat (e : Edf) (file : List Nat) (chan : List Nat)
    (begsam endsam : Nat) : Except String (List (List (Option ℚ))) :=
  if begsam < endsam then
    match e.hdr.n_samples_per_record.max? with
    | none => .error "ValueError"
    | some smpl =>
        match e.calib with
        | none => .error "AttributeError"
        | some c =>
            if ∀ i ∈ chan, i < e.hdr.n_samples_per_record.length then
              if ∀ i ∈ chan,
                  0 < e.hdr.n_samples_per_record.getD i 0 ∧
                  (e.hdr.n_samples_per_record.getD i 0) ∣ c.max_smp then
                let blocks := List.replicate e.hdr.n_records.toNat smpl.toNat
                let init : List (List (Option Int)) :=
                  chan.map (fun _ => List.replicate (endsam - begsam) none)
                let raw := (select_blocks blocks begsam endsam).foldl
                  (fillTriple file e c chan) init
                .ok ((raw.zip chan).map (fun p => p.1.map (Option.map (fun v : Int =>
                  ((v : ℚ) - c.dig_min.getD p.2 0) * c.gain.getD p.2 0 +
                    c.phys_min.getD p.2 0))))
              else .error "ValueError"
            else .error "IndexError"
  else .error "AssertionError"

/-- Truncation toward zero, as Python `int()` and the numpy `astype` cast
apply to a real value: the quotient of numerator by denominator rounded
toward zero. -/
def ratTrunc (q : ℚ) : Int := q.num.tdiv (q.den : Int)

/-- Wrap-around of an integer into the `int16` range, which is what the
numpy `astype` cast to `int16` does to an out-of-range value. -/
def toInt16 (v : Int) : Int := (v + 32768) % 65536 - 32768

/-- The digital code `write_edf` emits for one physical sample: scale by
`DIGITAL_MAX / physical_max`, cast to `int16` (truncate, then wrap), and
only then apply the two saturation assignments — which, coming after the
cast, can only ever fire on the wrapped value `-32768`. -/
def edfDigital (physical_max : ℚ) (x : ℚ) : Int :=
  let d := toInt16 (ratTrunc (x / physical_max * ((DIGITAL_MAX : Int) : ℚ)))
  let d1 := if DIGITAL_MAX < d then DIGITAL_MAX else d
  if d1 < DIGITAL_MIN then DIGITAL_MIN else d1

/-- The maximum absolute value over the whole data matrix,
`max(abs(data.data[0]))` (numpy max over every element). -/
def maxAbs (dat : List (List ℚ)) : ℚ :=
  (((dat.flatten).map (fun x => |x|)).max?).getD 0

/-- How `write_edf` obtains `physical_max`: the auto-ranging branch runs
only when the caller passed the value `None` explicitly; the argument a
caller omits is the default of the `def` line, which is the number 1000. -/
def resolvePhysicalMax (physical_max : Option ℚ) (dat : List (List ℚ)) : ℚ :=
  match physical_max with
  | none => maxAbs dat
  | some v => v

/-- The argument value of a call that omits `physical_max`: the default
`physical_max=1000` of the `write_edf` signature. -/
def writeEdfDefaultPhysicalMax : Option ℚ := some 1000

/-- ASCII decimal digits of a natural number. -/
def natDecimal (n : Nat) : List Nat :=
  (Nat.toDigits 10 n).map (fun ch => ch.toNat)

/-- ASCII decimal digits of an integer, with a leading minus sign when
negative, as Python formats an `int`. -/
def intDecimal (i : Int) : List Nat :=
  if i < 0 then 45 :: natDecimal i.natAbs else natDecimal i.toNat

/-- Python format with a left-justify width: pad on the right with spaces,
never truncating a value that is already longer than the width. -/
def padTo (l : List Nat) (w : Nat) : List Nat :=
  l ++ List.replicate (w - l.length) 32

/-- Two zero-padded ASCII digits, as `strftime` emits for each of the
day, month, two-digit year, hour, minute and second fields. -/
def pad2 (n : Nat) : List Nat := [48 + n / 10 % 10, 48 + n % 10]

/-- Days since 0000-03-01 of a Gregorian date (the standard civil-calendar
day-number algorithm), used to model `datetime + timedelta`. -/
def daysFromCivil (y m d : Int) : Int :=
  let y1 := y - (if m ≤ 2 then 1 else 0)
  let era := y1.fdiv 400
  let yoe := y1 - era * 400
  let mp := (m + 9).emod 12
  let doy := (153 * mp + 2).fdiv 5 + d - 1
  let doe := yoe * 365 + yoe.fdiv 4 - yoe.fdiv 100 + doy
  era * 146097 + doe

/-- Inverse of `daysFromCivil`. -/
def civilFromDays (z : Int) : Int × Int × Int :=
  let era := z.fdiv 146097
  let doe := z - era * 146097
  let yoe := (doe - doe.fdiv 1460 + doe.fdiv 36524 - doe.fdiv 146096).fdiv 365
  let y := yoe + era * 400
  let doy := doe - (365 * yoe + yoe.fdiv 4 - yoe.fdiv 100)
  let mp := (5 * doy + 2).fdiv 153
  let d := doy - (153 * mp + 2).fdiv 5 + 1
  let m := mp + (if mp < 10 then 3 else -9)
  (y + (if m ≤ 2 then 1 else 0), m, d)

/-- Model of `datetime + timedelta(seconds := t)` for a whole number of
seconds (the source adds the first entry of the time axis). -/
def dtAddSeconds (dt : PyDateTime) (t : Int) : PyDateTime :=
  let total := daysFromCivil dt.year dt.month dt.day * 86400 +
    (dt.hour : Int) * 3600 + (dt.minute : Int) * 60 + (dt.second : Int) + t
  let days := total.fdiv 86400
  let sod := total.emod 86400
  let c := civilFromDays days
  ⟨c.1.toNat, c.2.1.toNat, c.2.2.toNat,
   (sod.fdiv 3600).toNat, ((sod.emod 3600).fdiv 60).toNat, (sod.emod 60).toNat⟩

/-- The duck-typed data object `write_edf` consumes: a single trial of
channel-by-time samples, the channel labels of the chan axis, the sampling
frequency, the optional recording start time, and the first entry of the
time axis in whole seconds. -/
structure ChanTime where
  data : List (List ℚ)
  s_freq : ℚ
  chanLabels : List (List Nat)
  start_time : Option PyDateTime
  time0 : Int
deriving DecidableEq, Repr

/-- Little-endian two-byte encoding of an `int16` value, as
`struct.pack` with a `<h` item emits. -/
def encodeInt16LE (v : Int) : List Nat :=
  let u := ((v + 65536) % 65536).toNat
  [u % 256, u / 256]

/-- `write_edf`: emits the fixed-width ASCII header and the record body.
`physical_max` is an integer here because the modelled calls pass the
integer default of the signature (Python would format a float differently,
but no claim exercises that).  The `ValueError` is the missing
`start_time` check; the data matrix is encoded with `edfDigital` and laid
out record by record, channels back to back inside a record. -/
def write_edf (data : ChanTime) (physical_max : Int) : Except String (List Nat) :=
  match data.start_time with
  | none => .error "ValueError"
  | some st0 =>
      let start_time := dtAddSeconds st0 data.time0
      let physical_min : Int := -1 * physical_max
      let dat := data.data.map (fun row => row.map (edfDigital (physical_max : ℚ)))
      let n_smp := (data.data.headD []).length
      let s_freq := (ratTrunc data.s_freq).toNat
      let n_records := n_smp / s_freq
      let n_channels := data.chanLabels.length
      let header_n_bytes := 256 + 256 * n_channels
      let hdrBytes :=
        padTo (natDecimal 0) 8 ++
        padTo [88, 32, 88, 32, 88, 32, 88] 80 ++
        padTo [83, 116, 97, 114, 116, 100, 97, 116, 101, 32,
               88, 32, 88, 32, 88, 32, 88] 80 ++
        (pad2 start_time.day ++ [46] ++ pad2 start_time.month ++ [46] ++
          pad2 (start_time.year % 100)) ++
        (pad2 start_time.hour ++ [46] ++ pad2 start_time.minute ++ [46] ++
          pad2 start_time.second) ++
        padTo (natDecimal header_n_bytes) 8 ++
        List.replicate 44 32 ++
        padTo (natDecimal n_records) 8 ++
        padTo (natDecimal 1) 8 ++
        padTo (natDecimal n_channels) 4 ++
        (data.chanLabels.map (fun l => padTo l 16)).flatten ++
        (List.replicate n_channels (padTo [] 80)).flatten ++
        (List.replicate n_channels (padTo [117, 86] 8)).flatten ++
        (List.replicate n_channels (padTo (intDecimal physical_min) 8)).flatten ++
        (List.replicate n_channels (padTo (intDecimal physical_max) 8)).flatten ++
        (List.replicate n_channels (padTo (intDecimal DIGITAL_MIN) 8)).flatten ++
        (List.replicate n_channels (padTo (intDecimal DIGITAL_MAX) 8)).flatten ++
        (List.replicate n_channels (padTo [] 80)).flatten ++
        (List.replicate n_channels (padTo (natDecimal s_freq) 8)).flatten ++
        (List.replicate n_channels (List.replicate 32 32)).flatten
      let body := ((List.range n_records).map (fun i =>
        ((dat.map (fun row => (row.drop (i * s_freq)).take s_freq)).flatten.map
          encodeInt16LE).flatten)).flatten
      .ok (hdrBytes ++ body)

/-- Stated from the spec sentence of claim C4, for comparison with the
code: digital equals clamp(round(physical / physical_max x 32767),
-32767, 32767). -/
def claimedDigital (physical_max x : ℚ) : Int :=
  max (-32767) (min 32767 (round (x / physical_max * 32767)))

/-- Open a file: parse the header as `Edf.__init__` does, then run
`return_hdr` (the dataset loader always calls it before reading data). -/
def edfFromFile (file : List Nat) : Option Edf :=
  (readHdr file).bind (fun h => (return_hdr (mkEdf h)).map Prod.fst)

/-- Open a file and read a sample window through `return_dat`. -/
def openRead (file : List Nat) (chan : List Nat) (a b : Nat) :
    Option (List (List (Option ℚ))) :=
  (edfFromFile file).bind fun e => (return_dat e file chan a b).toOption

/-- Round trip: write a dataset with `write_edf`, reopen the produced
bytes, and read a sample window. -/
def writeReadBack (d : ChanTime) (pm : Int) (chan : List Nat) (a b : Nat) :
    Option (List (List (Option ℚ))) :=
  (write_edf d pm).toOption.bind fun file => openRead file chan a b

/-- Open a file and run `_read_record` on one block for some channels. -/
def recordRows (file : List Nat) (blk : Nat) (chans : List Nat) :
    Option (List (List Int)) :=
  (edfFromFile file).bind fun e => e.calib.map fun c =>
    read_record file e c blk chans

/-- The calibrated value that `return_dat` places at destination row `i`
and global sample position `g`, for uniform blocks of `m` samples: the
sample `g % m` of the upsampled record of block `g / m`. -/
def samplePoint (file : List Nat) (e : Edf) (c : Calib) (chan : List Nat)
    (m : Nat) (i g : Nat) : ℚ :=
  let v := ((read_record file e c (g / m) chan).getD i []).getD (g % m) 0
  ((v : ℚ) - c.dig_min.getD (chan.getD i 0) 0) * c.gain.getD (chan.getD i 0) 0 +
    c.phys_min.getD (chan.getD i 0) 0

/-- ASCII bytes of a string (all strings used below are ASCII). -/
def asciiBytes (s : String) : List Nat := s.data.map Char.toNat

/-- A fixed-width ASCII header field, left-justified and space-padded. -/
def asciiField (s : String) (w : Nat) : List Nat := padTo (asciiBytes s) w

/-- Spaces. -/
def spaces (n : Nat) : List Nat := List.replicate n 32

/-- Concrete round-trip dataset for claim C1: one channel labelled ch1,
sampling frequency 2 Hz, four samples 10, 20, 30, 40 (all inside the
physical range of the default physical_max of 1000), a valid start time
and a time axis starting at zero. -/
def c1data : ChanTime :=
  ⟨[[10, 20, 30, 40]], 2, [[99, 104, 49]], some ⟨2010, 1, 1, 0, 0, 0⟩, 0⟩

/-- The header of the concrete two-channel file of claim C2:
physical range -100..100, digital range -2048..2047, one record of one
second, four samples per record on both channels. -/
def c2hdr : List Nat :=
  asciiBytes "0       " ++ spaces 80 ++ spaces 80 ++
  asciiBytes "01.01.10" ++ asciiBytes "00.00.00" ++
  asciiField "768" 8 ++ spaces 44 ++ asciiField "1" 8 ++ asciiField "1" 8 ++
  asciiField "2" 4 ++
  spaces 32 ++ spaces 160 ++ spaces 16 ++
  asciiField "-100" 8 ++ asciiField "-100" 8 ++
  asciiField "100" 8 ++ asciiField "100" 8 ++
  asciiField "-2048" 8 ++ asciiField "-2048" 8 ++
  asciiField "2047" 8 ++ asciiField "2047" 8 ++
  spaces 160 ++ asciiField "4" 8 ++ asciiField "4" 8 ++ spaces 64

/-- The concrete file of claim C2: its single record stores the int16
values 0, 1024, -1024, 2047 for channel 0 followed by 0, 0, 0, 0 for
channel 1. -/
def c2file : List Nat :=
  c2hdr ++ ([0, 1024, -1024, 2047, 0, 0, 0, 0].map encodeInt16LE).flatten

/-- A two-channel file for claim C6 with heterogeneous rates: channel 0
stores 4 samples per record, channel 1 stores 2 (half of max_smp, so its
upsampling ratio is 2); the single record stores 1, 2, 3, 4 for channel 0
and 5, 6 for channel 1. -/
def c6file : List Nat :=
  asciiBytes "0       " ++ spaces 80 ++ spaces 80 ++
  asciiBytes "01.01.10" ++ asciiBytes "00.00.00" ++
  asciiField "768" 8 ++ spaces 44 ++ asciiField "1" 8 ++ asciiField "1" 8 ++
  asciiField "2" 4 ++
  spaces 32 ++ spaces 160 ++ spaces 16 ++
  asciiField "-100" 8 ++ asciiField "-100" 8 ++
  asciiField "100" 8 ++ asciiField "100" 8 ++
  asciiField "-2048" 8 ++ asciiField "-2048" 8 ++
  asciiField "2047" 8 ++ asciiField "2047" 8 ++
  spaces 160 ++ asciiField "4" 8 ++ asciiField "2" 8 ++ spaces 64 ++
  ([1, 2, 3, 4, 5, 6].map encodeInt16LE).flatten

/-- A single-channel 512-byte header whose record_length field holds the
given text; every other field is valid, the version marker matches and
the self-declared header_n_bytes of 512 equals the deterministic
end-of-header offset 256 + 256 * 1. -/
def c7fileWith (recordLength : String) : List Nat :=
  asciiBytes "0       " ++ spaces 80 ++ spaces 80 ++
  asciiBytes "01.01.10" ++ asciiBytes "00.00.00" ++
  asciiField "512" 8 ++ spaces 44 ++ asciiField "1" 8 ++
  asciiField recordLength 8 ++ asciiField "1" 4 ++
  spaces 16 ++ spaces 80 ++ spaces 8 ++
  asciiField "-100" 8 ++ asciiField "100" 8 ++
  asciiField "-2048" 8 ++ asciiField "2047" 8 ++
  spaces 80 ++ asciiField "4" 8 ++ spaces 32

/-- Claim C7 counterexample file: non-numeric record_length. -/
def c7badFile : List Nat := c7fileWith "abc"

/-- The same file with a numeric record_length, which parses fine. -/
def c7goodFile : List Nat := c7fileWith "1"

/-- A small well-formed header used to instantiate general theorems. -/
def c10hdr : Hdr :=
  ⟨[], [], ⟨2010, 1, 1, 0, 0, 0⟩, 512, 1, 1, 1,
   [[]], [[]], [[]], [-100], [100], [-2048], [2047], [[]], [4]⟩

/-- The physical ranges computed by `return_hdr`. -/
def physRangeOf (h : Hdr) : List ℚ :=
  h.physical_max.zipWith (fun x y => x - y) h.physical_min

/-- The digital ranges computed by `return_hdr`. -/
def digRangeOf (h : Hdr) : List ℚ :=
  h.digital_max.zipWith (fun x y => x - y) h.digital_min

/-- The per-channel gains `return_hdr` derives. -/
def gainsOf (h : Hdr) : List ℚ :=
  (physRangeOf h).zipWith (fun p d => p / d) (digRangeOf h)

/-- The calibration attribute record `return_hdr` stores when the maximal
per-record sample count is `mx`. -/
def calibOf (h : Hdr) (mx : Int) : Calib :=
  ⟨mx, h.n_samples_per_record.sum, h.digital_min, h.physical_min, gainsOf h⟩


set_option maxRecDepth 8000

theorem parseHdrAux_marker (bytes : List Nat)
    (h : bytes.take 8 ≠ versionMarker) : parseHdrAux bytes = none := by
  unfold parseHdrAux
  simp only [rsRead, List.drop_zero]
  exact if_pos h

/-- Claim C9: header timestamp parsing uses the fixed 1985 cutoff on the
two-digit year: a year of at least 85 decodes to 1900 + y, a smaller one
to 2000 + y; in particular 84 decodes to 2084 and 85 to 1985, which is
also shown for the full date-field parser. -/
theorem c9_year_cutoff :
    (∀ y : Nat, (85 ≤ y → normalizeYear y = 1900 + y) ∧
      (y < 85 → normalizeYear y = 2000 + y)) ∧
    normalizeYear 84 = 2084 ∧ normalizeYear 85 = 1985 ∧
    parseStartTime (asciiBytes "01.01.84") (asciiBytes "00.00.00") =
      some ⟨2084, 1, 1, 0, 0, 0⟩ ∧
    parseStartTime (asciiBytes "01.01.85") (asciiBytes "00.00.00") =
      some ⟨1985, 1, 1, 0, 0, 0⟩ := by
  refine ⟨fun y => ⟨fun h => ?_, fun h => ?_⟩, by decide, by decide,
    by decide, by decide⟩
  · rw [normalizeYear, if_pos h]; omega
  · rw [normalizeYear, if_neg (by omega)]; omega

/-- Witness for C9 at the concrete years 90 and 7. -/
theorem c9_year_cutoff_witness :
    normalizeYear 90 = 1900 + 90 ∧ normalizeYear 7 = 2000 + 7 :=
  ⟨(c9_year_cutoff.1 90).1 (by decide), (c9_year_cutoff.1 7).2 (by decide)⟩

/-- Claim C7, amended: header parsing fails when the leading 8 bytes are
not the version marker, and a successful parse implies both that the
marker matched and that the final read offset equals the self-declared
header_n_bytes; the claim direction that the two conditions alone
guarantee a successful parse is refuted by `c7_counterexample`, since any
unparseable field (here a non-numeric record_length) also fails the
parse. -/
theorem c7_parse_checks :
    (∀ bytes : List Nat, bytes.take 8 ≠ versionMarker → readHdr bytes = none) ∧
    (∀ (bytes : List Nat) (h : Hdr), readHdr bytes = some h →
      bytes.take 8 = versionMarker ∧
      ∃ pos : Nat, parseHdrAux bytes = some (h, pos) ∧
        (pos : Int) = h.header_n_bytes) := by
  constructor
  · intro bytes hm
    unfold readHdr
    rw [parseHdrAux_marker bytes hm]
  · intro bytes h hr
    constructor
    · by_contra hm
      rw [readHdr, parseHdrAux_marker bytes hm] at hr
      exact Option.noConfusion hr
    · unfold readHdr at hr
      cases hp : parseHdrAux bytes with
      | none => rw [hp] at hr; exact Option.noConfusion hr
      | some p =>
          obtain ⟨h1, pos⟩ := p
          rw [hp] at hr
          dsimp only at hr
          split_ifs at hr with hq
          injection hr with hr1
          subst hr1
          exact ⟨pos, rfl, hq⟩

/-- Witness for the amended C7 at a concrete three-byte non-EDF file. -/
theorem c7_parse_checks_witness : readHdr [1, 2, 3] = none :=
  c7_parse_checks.1 [1, 2, 3] (by decide)

/-- Counterexample to claim C7 as stated: `c7badFile` starts with the
version marker and declares header_n_bytes 512, the deterministic
end-of-header offset of its single-channel layout (its twin
`c7goodFile`, equal outside the record_length field at bytes 244..251,
parses with final offset 512), yet parsing fails, because the
record_length field is not numeric. -/
theorem c7_counterexample :
    readHdr c7badFile = none ∧
    c7badFile.take 8 = versionMarker ∧
    c7badFile.length = 512 ∧
    (readHdr c7goodFile).map Hdr.header_n_bytes = some 512 ∧
    (parseHdrAux c7goodFile).map Prod.snd = some 512 ∧
    c7badFile.take 244 = c7goodFile.take 244 ∧
    c7badFile.drop 252 = c7goodFile.drop 252 := by
  refine ⟨by decide, by decide, by decide, by decide, by decide,
    by decide, by decide⟩

/-- Counterexample to claim C8 as stated: a call that omits physical_max
gets the signature default 1000, not the maximum absolute data value 7 of
this data matrix. -/
theorem c8_counterexample :
    resolvePhysicalMax writeEdfDefaultPhysicalMax [[5, -7]] = 1000 ∧
    maxAbs [[5, -7]] = 7 ∧ (1000 : ℚ) ≠ 7 := by
  refine ⟨rfl, by decide, by norm_num⟩

/-- Claim C8, amended: the auto-ranging branch runs when the caller
passes physical_max as None; it yields the maximum absolute value of the
data (an upper bound on every absolute value, attained by some element),
while a call that omits the argument uses the default value 1000. -/
theorem c8_autorange (dat : List (List ℚ)) (hne : dat.flatten ≠ []) :
    (∀ x ∈ dat.flatten, |x| ≤ resolvePhysicalMax none dat) ∧
    (∃ x ∈ dat.flatten, resolvePhysicalMax none dat = |x|) ∧
    (∀ v : ℚ, resolvePhysicalMax (some v) dat = v) ∧
    resolvePhysicalMax writeEdfDefaultPhysicalMax dat = 1000 := by
  have hmm : ∃ m, ((dat.flatten.map (fun x => |x|)).max?) = some m := by
    cases hf : dat.flatten with
    | nil => exact absurd hf hne
    | cons x xs => exact ⟨_, by rw [List.map_cons, List.max?_cons]⟩
  obtain ⟨m, hm⟩ := hmm
  have hmem : m ∈ dat.flatten.map (fun x => |x|) :=
    List.max?_mem max_choice hm
  have hub : ∀ b ∈ dat.flatten.map (fun x => |x|), b ≤ m :=
    (List.max?_le_iff (fun _ _ _ => max_le_iff) hm).mp le_rfl
  have hmax : resolvePhysicalMax none dat = m := by
    show maxAbs dat = m
    rw [maxAbs, hm]
    rfl
  refine ⟨?_, ?_, fun v => rfl, rfl⟩
  · intro x hx
    have hx2 : |x| ∈ dat.flatten.map (fun x => |x|) :=
      List.mem_map_of_mem _ hx
    rw [hmax]
    exact hub _ hx2
  · obtain ⟨x, hx, hxm⟩ := List.mem_map.mp hmem
    exact ⟨x, hx, by rw [hmax, ← hxm]⟩

/-- Witness for the amended C8 at a concrete data matrix. -/
theorem c8_autorange_witness :
    |(-4 : ℚ)| ≤ resolvePhysicalMax none [[3, -4]] :=
  (c8_autorange [[3, -4]] (by decide)).1 (-4) (by decide)

theorem toInt16_bounds (v : Int) : -32768 ≤ toInt16 v ∧ toInt16 v ≤ 32767 := by
  unfold toInt16
  have h1 : 0 ≤ (v + 32768) % 65536 := Int.emod_nonneg _ (by norm_num)
  have h2 : (v + 32768) % 65536 < 65536 := Int.emod_lt_of_pos _ (by norm_num)
  omega

theorem toInt16_eq_self (v : Int) (h1 : -32768 ≤ v) (h2 : v ≤ 32767) :
    toInt16 v = v := by
  unfold toInt16
  rw [Int.emod_eq_of_lt (by omega) (by omega)]
  omega

theorem ratTrunc_eq_floor (q : ℚ) (h : 0 ≤ q) : ratTrunc q = ⌊q⌋ := by
  rw [ratTrunc, Rat.floor_def]
  exact Int.tdiv_eq_ediv (Rat.num_nonneg.mpr h) (by positivity)

theorem ratTrunc_eq_ceil (q : ℚ) (h : q < 0) : ratTrunc q = ⌈q⌉ := by
  have hnum : q.num < 0 := Rat.num_neg.mpr h
  have h1 : (-q.num).tdiv (q.den : Int) = (-q.num) / (q.den : Int) :=
    Int.tdiv_eq_ediv (by omega) (by positivity)
  have h2 : ⌊-q⌋ = (-q.num) / (q.den : Int) := by
    rw [Rat.floor_def, Rat.neg_num, Rat.neg_den]
  have h3 : ⌈q⌉ = -⌊-q⌋ := by rw [Int.floor_neg, neg_neg]
  have h4 : (-q.num).tdiv (q.den : Int) = -(q.num.tdiv (q.den : Int)) :=
    Int.neg_tdiv _ _
  rw [ratTrunc, h3, h2, ← h1]
  omega

theorem ratTrunc_le (q : ℚ) (n : Int) (hn : 0 ≤ n) (h : q ≤ (n : ℚ)) :
    ratTrunc q ≤ n := by
  by_cases hq : 0 ≤ q
  · rw [ratTrunc_eq_floor q hq]
    calc ⌊q⌋ ≤ ⌊(n : ℚ)⌋ := Int.floor_le_floor h
    _ = n := Int.floor_intCast n
  · rw [ratTrunc_eq_ceil q (by linarith)]
    have : ⌈q⌉ ≤ (0 : Int) := Int.ceil_le.mpr (by push_cast; linarith)
    omega

theorem le_ratTrunc (q : ℚ) (n : Int) (hn : n ≤ 0) (h : (n : ℚ) ≤ q) :
    n ≤ ratTrunc q := by
  by_cases hq : 0 ≤ q
  · rw [ratTrunc_eq_floor q hq]
    have : (0 : Int) ≤ ⌊q⌋ := Int.floor_nonneg.mpr hq
    omega
  · rw [ratTrunc_eq_ceil q (by linarith)]
    calc n = ⌈(n : ℚ)⌉ := (Int.ceil_intCast n).symm
    _ ≤ ⌈q⌉ := Int.ceil_le_ceil h

/-- Claim C4, amended: the writer encodes a physical sample by scaling
with 32767 / physical_max, truncating toward zero, and casting to int16,
which wraps out-of-range values; the saturation assignments run only
after the cast, so the only value they ever change is the wrapped -32768,
which becomes -32767.  Consequently every emitted code lies in
[-32767, 32767], -32768 is never written, physical 0 maps to digital 0
exactly, and for samples whose magnitude is at most physical_max the code
is exactly the truncated scaled value — but values exceeding
physical_max are wrapped, not clamped (see the counterexample). -/
theorem c4_encoding (pm x : ℚ) (hpm : 0 < pm) :
    DIGITAL_MIN ≤ edfDigital pm x ∧ edfDigital pm x ≤ DIGITAL_MAX ∧
    edfDigital pm x ≠ -32768 ∧ edfDigital pm 0 = 0 ∧
    (|x| ≤ pm → edfDigital pm x = ratTrunc (x / pm * 32767)) := by
  have hcast : ((DIGITAL_MAX : Int) : ℚ) = 32767 := by
    rw [DIGITAL_MAX]; norm_num
  refine ⟨?_, ?_, ?_, ?_, ?_⟩
  · unfold edfDigital DIGITAL_MIN DIGITAL_MAX
    have hb := toInt16_bounds (ratTrunc (x / pm * ((DIGITAL_MAX : Int) : ℚ)))
    dsimp only
    split_ifs <;> simp_all [DIGITAL_MAX, DIGITAL_MIN]
  · unfold edfDigital DIGITAL_MIN DIGITAL_MAX
    have hb := toInt16_bounds (ratTrunc (x / pm * ((DIGITAL_MAX : Int) : ℚ)))
    dsimp only
    split_ifs <;> simp_all [DIGITAL_MAX, DIGITAL_MIN]
  · unfold edfDigital DIGITAL_MIN DIGITAL_MAX
    have hb := toInt16_bounds (ratTrunc (x / pm * ((DIGITAL_MAX : Int) : ℚ)))
    dsimp only
    split_ifs <;> simp_all [DIGITAL_MAX, DIGITAL_MIN]
    all_goals omega
  · unfold edfDigital
    rw [zero_div, zero_mul]
    decide
  · intro hx
    unfold edfDigital
    rw [hcast]
    have hxle : x ≤ pm := le_of_abs_le hx
    have hxge : -pm ≤ x := neg_le_of_abs_le hx
    have hdle : x / pm ≤ 1 := (div_le_one hpm).mpr hxle
    have hdge : -1 ≤ x / pm := by
      have h1 : -x / pm ≤ 1 := (div_le_one hpm).mpr (by linarith)
      have h2 : -x / pm = -(x / pm) := by ring
      linarith [h2 ▸ h1]
    have hs1 : x / pm * 32767 ≤ ((32767 : Int) : ℚ) := by
      push_cast
      nlinarith
    have hs2 : ((-32767 : Int) : ℚ) ≤ x / pm * 32767 := by
      push_cast
      nlinarith
    have ht1 : ratTrunc (x / pm * 32767) ≤ 32767 :=
      ratTrunc_le _ _ (by norm_num) hs1
    have ht2 : -32767 ≤ ratTrunc (x / pm * 32767) :=
      le_ratTrunc _ _ (by norm_num) hs2
    rw [toInt16_eq_self _ (by omega) (by omega)]
    rw [DIGITAL_MAX, DIGITAL_MIN]
    rw [if_neg (by omega), if_neg (by omega)]

/-- Witness for the amended C4 at physical_max 100 and sample 50. -/
theorem c4_encoding_witness :
    DIGITAL_MIN ≤ edfDigital 100 50 ∧ edfDigital 100 50 ≤ DIGITAL_MAX ∧
    edfDigital 100 50 ≠ -32768 ∧ edfDigital 100 0 = 0 ∧
    edfDigital 100 50 = ratTrunc (50 / 100 * 32767) := by
  obtain ⟨a, b, c, d, e⟩ := c4_encoding 100 50 (by norm_num)
  refine ⟨a, b, c, d, e ?_⟩
  rw [abs_of_nonneg] <;> norm_num

/-- Counterexample to claim C4 as stated: at physical_max 100, the
sample 200 (double the physical range) is emitted as -2 — the scaled
value 65534 truncates and wraps around in the int16 cast before the
saturation assignments run — while the claimed clamp-of-round formula
gives 32767; and the sample 0.003 is emitted as 0, the truncation of
0.98301, while the claimed rounding gives 1. -/
theorem c4_counterexample :
    edfDigital 100 200 = -2 ∧ claimedDigital 100 200 = 32767 ∧
    edfDigital 100 (3 / 1000) = 0 ∧ claimedDigital 100 (3 / 1000) = 1 ∧
    ((-2 : Int) ≠ 32767) ∧ ((0 : Int) ≠ 1) := by
  refine ⟨by decide, ?_, by decide, ?_, by decide, by decide⟩
  · rw [claimedDigital]
    norm_num [round_eq]
  · rw [claimedDigital]
    norm_num [round_eq]

/-- Claim C10: on a freshly constructed `Edf` (with a nonempty
per-record sample list and a valid sample range), `return_dat` raises
AttributeError because the layout and calibration attributes are only
assigned by `return_hdr`; once `return_hdr` has run, no call to
`return_dat` fails with AttributeError. -/
theorem c10_attribute_lifecycle
    (h : Hdr) (file chan : List Nat) (a b : Nat)
    (hab : a < b) (hne : h.n_samples_per_record ≠ []) :
    return_dat (mkEdf h) file chan a b = .error "AttributeError" ∧
    ∀ (e : Edf) (out : List Nat × PyDateTime × ℚ × List (List Nat) × Int),
      return_hdr (mkEdf h) = some (e, out) →
      ∀ (chan2 : List Nat) (a2 b2 : Nat),
        return_dat e file chan2 a2 b2 ≠ .error "AttributeError" := by
  constructor
  · have hmax : ∃ mx, h.n_samples_per_record.max? = some mx := by
      cases hl : h.n_samples_per_record with
      | nil => exact absurd hl hne
      | cons x xs => exact ⟨_, List.max?_cons⟩
    obtain ⟨mx, hmx⟩ := hmax
    unfold return_dat
    rw [if_pos hab]
    simp only [mkEdf, hmx]
  · intro e out hret chan2 a2 b2
    have hcal : ∃ c, e.calib = some c := by
      unfold return_hdr at hret
      cases hmx : (mkEdf h).hdr.n_samples_per_record.max? with
      | none => rw [hmx] at hret; exact Option.noConfusion hret
      | some mx =>
          rw [hmx] at hret
          dsimp only at hret
          split_ifs at hret with hcond
          injection hret with hr1
          obtain ⟨he, -⟩ := Prod.mk.injEq .. |>.mp hr1
          rw [← he]
          exact ⟨_, rfl⟩
    obtain ⟨c, hc⟩ := hcal
    unfold return_dat
    by_cases h2 : a2 < b2
    · rw [if_pos h2]
      cases hmx2 : e.hdr.n_samples_per_record.max? with
      | none => simp
      | some s =>
          dsimp only
          rw [hc]
          dsimp only
          split_ifs <;> simp
    · rw [if_neg h2]; simp

/-- Witness for C10 at a concrete header. -/
theorem c10_attribute_lifecycle_witness :
    return_dat (mkEdf c10hdr) [] [] 0 1 = .error "AttributeError" :=
  (c10_attribute_lifecycle c10hdr [] [] 0 1 (by decide) (by decide)).1

/-- Claim C1 (failing run): writing the dataset `c1data` (one channel,
2 Hz, samples 10 20 30 40, all within the physical_max of 1000) with
`write_edf` and reading the produced file back over its full range gives
samples 10, 20, 20, 30 (scaled); samples 0 and 1 are within one
quantization step of the originals but samples 2 and 3 are not: the
block-1 seek lands 2 samples early because the source seeks to a byte
offset computed in samples (missing the factor 2 of int16). -/
theorem c1_roundtrip_failure :
    writeReadBack c1data 1000 [0] 0 4 =
      some [[some (327000 / 32767), some (655000 / 32767),
             some (655000 / 32767), some (983000 / 32767)]] ∧
    |(10 : ℚ) - 327000 / 32767| ≤ 1000 / 32767 ∧
    |(20 : ℚ) - 655000 / 32767| ≤ 1000 / 32767 ∧
    ¬(|(30 : ℚ) - 655000 / 32767| ≤ 1000 / 32767) ∧
    ¬(|(40 : ℚ) - 983000 / 32767| ≤ 1000 / 32767) := by
  refine ⟨by decide, by decide, by decide, by decide, by decide⟩

/-- Claim C2 (failing run): on the spec scenario file, channel 0 decodes
within one gain step (200/4095 = 40/819) of the claimed 0, 50.02,
-50.02, 100, but channel 1 decodes to about -49.99, 100, 0.02, 0.02
instead of 0, 0, 0, 0: its in-record seek advances 4 bytes instead of 8,
so it reads the tail of channel 0. -/
theorem c2_scenario_failure :
    openRead c2file [0, 1] 0 4 =
      some [[some (20 / 819), some (13660 / 273), some (-40940 / 819), some 100],
            [some (-40940 / 819), some 100, some (20 / 819), some (20 / 819)]] ∧
    |(20 / 819 : ℚ) - 0| ≤ 40 / 819 ∧
    |(13660 / 273 : ℚ) - 5002 / 100| ≤ 40 / 819 ∧
    |(-40940 / 819 : ℚ) - (-5002 / 100)| ≤ 40 / 819 ∧
    |(100 : ℚ) - 100| ≤ 40 / 819 ∧
    ¬(|(-40940 / 819 : ℚ) - 0| ≤ 40 / 819) := by
  refine ⟨by decide, by decide, by decide, by decide, by decide, by decide⟩

/-- Claim C6 (failing run): in `c6file` channel 1 stores 2 samples per
record, half of max_smp 4, and the reader does repeat each decoded
sample exactly twice; but the sequence it decodes and repeats is 3, 4 —
the tail of channel 0, reached because the seek omits the
2-bytes-per-sample factor — rather than the stored sequence 5, 6 at byte
offset 768 + 2 * 4, so the produced row is not the stored sequence
duplicated. -/
theorem c6_upsample_wrong_source :
    recordRows c6file 0 [1] = some [[3, 3, 4, 4]] ∧
    int16Run c6file (768 + 2 * 4) 2 = [5, 6] ∧
    (readHdr c6file).map Hdr.n_samples_per_record = some [4, 2] ∧
    ([[3, 3, 4, 4]] : List (List Int)) ≠ [[5, 5, 6, 6]] := by
  refine ⟨by decide, by decide, by decide, by decide⟩


theorem toNat_mul_of_nonneg (a b : Int) (ha : 0 ≤ a) (hb : 0 ≤ b) :
    (a * b).toNat = a.toNat * b.toNat := by
  have h := mul_nonneg ha hb
  have h2 : ((a * b).toNat : Int) = ((a.toNat * b.toNat : Nat) : Int) := by
    push_cast
    rw [Int.toNat_of_nonneg h, Int.toNat_of_nonneg ha, Int.toNat_of_nonneg hb]
  exact_mod_cast h2

theorem getD_map_lt {α β : Type} (f : α → β) (l : List α) (i : Nat)
    (hi : i < l.length) (d : β) (d2 : α) :
    (l.map f).getD i d = f (l.getD i d2) := by
  rw [List.getD_eq_getElem?_getD, List.getElem?_map,
    List.getD_eq_getElem?_getD, List.getElem?_eq_getElem hi]
  simp

theorem repeatElems_length (xs : List Int) (r : Nat) :
    (repeatElems xs r).length = xs.length * r := by
  induction xs with
  | nil => simp [repeatElems]
  | cons x xs ih =>
      simp only [repeatElems, List.map_cons, List.flatten_cons,
        List.length_append, List.length_replicate, List.length_cons] at ih ⊢
      rw [Nat.succ_mul]
      omega

theorem int16Run_length (file : List Nat) (off n : Nat) :
    (int16Run file off n).length = n := by
  simp [int16Run]

theorem read_record_length (file : List Nat) (e : Edf) (c : Calib)
    (blk : Nat) (chans : List Nat) :
    (read_record file e c blk chans).length = chans.length := by
  simp [read_record]

theorem read_record_row_length (file : List Nat) (e : Edf) (c : Calib)
    (blk : Nat) (chans : List Nat) (i : Nat) (hi : i < chans.length)
    (hm : 0 < c.max_smp)
    (hn : 0 < e.hdr.n_samples_per_record.getD (chans.getD i 0) 0)
    (hd : e.hdr.n_samples_per_record.getD (chans.getD i 0) 0 ∣ c.max_smp) :
    ((read_record file e c blk chans).getD i []).length = c.max_smp.toNat := by
  rw [read_record, getD_map_lt _ _ _ hi _ 0]
  rw [repeatElems_length, int16Run_length]
  set n := e.hdr.n_samples_per_record.getD (chans.getD i 0) 0 with hndef
  obtain ⟨k, hk⟩ := hd
  have hk0 : 0 < k := by
    by_contra hneg
    push_neg at hneg
    nlinarith
  have htdiv : c.max_smp.tdiv n = k := by
    rw [Int.tdiv_eq_ediv hm.le hn.le, hk, Int.mul_ediv_cancel_left _ hn.ne']
  rw [htdiv, hk, toNat_mul_of_nonneg _ _ hn.le hk0.le]

example (a b c_ : Nat) (h : max a b ≤ c_) : a ≤ c_ := by omega
example (a b c_ : Nat) (h : c_ < min a b) : c_ < a := by omega

theorem fillRow_length (row : List (Option Int)) (d0 : Nat) (xs : List Int)
    (h : d0 + xs.length ≤ row.length) :
    (fillRow row d0 xs).length = row.length := by
  simp only [fillRow, List.length_append, List.length_take, List.length_map,
    List.length_drop]
  omega

theorem fillRow_getD (row : List (Option Int)) (d0 : Nat) (xs : List Int)
    (j : Nat) (h : d0 + xs.length ≤ row.length) :
    (fillRow row d0 xs).getD j none =
      if d0 ≤ j ∧ j < d0 + xs.length then some (xs.getD (j - d0) 0)
      else row.getD j none := by
  have hd0 : d0 ≤ row.length := by omega
  rw [List.getD_eq_getElem?_getD, List.getD_eq_getElem?_getD]
  simp only [fillRow, List.getElem?_append, List.length_append,
    List.length_take, List.length_map, List.getElem?_take, List.getElem?_map,
    List.getElem?_drop, Nat.min_eq_left hd0]
  split_ifs with h1 h2 h3 h4 h5 <;> try omega
  · rw [List.getD_eq_getElem?_getD]
  · have hx : j - d0 < xs.length := by omega
    rw [List.getElem?_eq_getElem hx]
    rfl
  · have hj : d0 + xs.length + (j - (d0 + xs.length)) = j := by omega
    rw [hj, List.getD_eq_getElem?_getD]

theorem select_blocks_aux_bounds (bs : List Nat) :
    ∀ (k off a b : Nat) (t : (Nat × Nat) × Nat × (Nat × Nat)),
      t ∈ select_blocks_aux bs k off a b → t.1.1 ≤ t.1.2 ∧ t.1.2 ≤ b - a := by
  induction bs with
  | nil => intro k off a b t ht; simp [select_blocks_aux] at ht
  | cons sz rest ih =>
      intro k off a b t ht
      simp only [select_blocks_aux, List.mem_append] at ht
      rcases ht with ht | ht
      · split_ifs at ht with hlh
        · simp only [List.mem_singleton] at ht
          subst ht
          dsimp only
          omega
        · simp at ht
      · exact ih (k + 1) (off + sz) a b t ht

theorem fillTriple_length (file : List Nat) (e : Edf) (c : Calib)
    (chans : List Nat) (M : List (List (Option Int)))
    (t : (Nat × Nat) × Nat × (Nat × Nat)) (hM : M.length = chans.length) :
    (fillTriple file e c chans M t).length = chans.length := by
  simp [fillTriple, read_record, hM]

theorem fillTriple_row_length (file : List Nat) (e : Edf) (c : Calib)
    (chans : List Nat) (M : List (List (Option Int)))
    (t : (Nat × Nat) × Nat × (Nat × Nat)) (W : Nat)
    (hW : ∀ row ∈ M, row.length = W)
    (ht1 : t.1.1 ≤ t.1.2) (ht2 : t.1.2 ≤ W) :
    ∀ row ∈ fillTriple file e c chans M t, row.length = W := by
  intro row hr
  simp only [fillTriple, List.mem_map] at hr
  obtain ⟨p, hmem, rfl⟩ := hr
  have h0 : p.1 ∈ M := (List.of_mem_zip hmem).1
  have hlen := hW p.1 h0
  have hxs : ((p.2.drop t.2.2.1).take (t.1.2 - t.1.1)).length ≤ t.1.2 - t.1.1 := by
    simp only [List.length_take, List.length_drop]
    omega
  rw [fillRow_length _ _ _ (by omega)]
  exact hlen

theorem getD_zip_of_lt {α β : Type} (l1 : List α) (l2 : List β) (i : Nat)
    (d1 : α) (d2 : β) (h1 : i < l1.length) (h2 : i < l2.length) :
    (l1.zip l2).getD i (d1, d2) = (l1.getD i d1, l2.getD i d2) := by
  rw [List.getD_eq_getElem?_getD, List.zip_eq_zipWith, List.getElem?_zipWith,
    List.getElem?_eq_getElem h1, List.getElem?_eq_getElem h2,
    List.getD_eq_getElem?_getD, List.getD_eq_getElem?_getD,
    List.getElem?_eq_getElem h1, List.getElem?_eq_getElem h2]
  rfl

theorem fillTriple_getD_cell (file : List Nat) (e : Edf) (c : Calib)
    (chans : List Nat) (M : List (List (Option Int)))
    (d0 d1 k b0 b1 : Nat) (i j : Nat) (W m : Nat)
    (hMlen : M.length = chans.length)
    (hW : ∀ row ∈ M, row.length = W)
    (hrow : ((read_record file e c k chans).getD i []).length = m)
    (hi : i < chans.length)
    (hdd : d0 ≤ d1) (hd1 : d1 ≤ W) (hbm : b0 + (d1 - d0) ≤ m) :
    ((fillTriple file e c chans M ((d0, d1), k, (b0, b1))).getD i []).getD j none =
      if d0 ≤ j ∧ j < d1 then
        some (((read_record file e c k chans).getD i []).getD (b0 + (j - d0)) 0)
      else (M.getD i []).getD j none := by
  have hrl : (read_record file e c k chans).length = chans.length :=
    read_record_length file e c k chans
  have hiM : i < M.length := by omega
  have hir : i < (read_record file e c k chans).length := by omega
  have hgetdmem : M.getD i [] ∈ M := by
    rw [List.getD_eq_getElem?_getD, List.getElem?_eq_getElem hiM]
    exact List.getElem_mem hiM
  have hMi : (M.getD i []).length = W := hW _ hgetdmem
  have hzlen : i < (M.zip (read_record file e c k chans)).length := by
    rw [List.length_zip]
    omega
  simp only [fillTriple]
  rw [getD_map_lt _ _ i (by simpa using hzlen) [] ([], []),
    getD_zip_of_lt _ _ i [] [] hiM hir]
  dsimp only
  have hxlen : ((((read_record file e c k chans).getD i []).drop b0).take (d1 - d0)).length = d1 - d0 := by
    simp only [List.length_take, List.length_drop, hrow]
    omega
  rw [fillRow_getD _ _ _ _ (by rw [hxlen, hMi]; omega)]
  rw [hxlen]
  split_ifs with h1 h2 <;> try omega
  · have hjd : j - d0 < d1 - d0 := by omega
    congr 1
    rw [List.getD_eq_getElem?_getD, List.getElem?_take, if_pos hjd,
      List.getElem?_drop, List.getD_eq_getElem?_getD,
      List.getD_eq_getElem?_getD]
  · rfl

theorem foldl_fill_getD (file : List Nat) (e : Edf) (c : Calib)
    (chans : List Nat) (m : Nat) (hm : 0 < m)
    (hrec : ∀ blk i, i < chans.length →
      ((read_record file e c blk chans).getD i []).length = m)
    (a b : Nat) (R : Nat) :
    ∀ (k off : Nat) (M : List (List (Option Int))),
      M.length = chans.length →
      (∀ row ∈ M, row.length = b - a) →
      ∀ (i j : Nat), i < chans.length → j < b - a →
      (((select_blocks_aux (List.replicate R m) k off a b).foldl
          (fillTriple file e c chans) M).getD i []).getD j none =
        (if max off a ≤ a + j ∧ a + j < min (off + R * m) b then
          some (((read_record file e c (k + (a + j - off) / m) chans).getD i []).getD
            ((a + j - off) % m) 0)
        else (M.getD i []).getD j none) := by
  induction R with
  | zero =>
      intro k off M hMlen hMrow i j hi hj
      simp only [List.replicate_zero, select_blocks_aux, List.foldl_nil]
      rw [if_neg (by omega)]
  | succ R ih =>
      intro k off M hMlen hMrow i j hi hj
      have hmul : (R + 1) * m = R * m + m := Nat.succ_mul R m
      rw [List.replicate_succ]
      simp only [select_blocks_aux]
      by_cases hlh : max off a < min (off + m) b
      · rw [if_pos hlh, List.singleton_append, List.foldl_cons]
        have hMlen2 : (fillTriple file e c chans M
            ((max off a - a, min (off + m) b - a), k,
             (max off a - off, min (off + m) b - off))).length = chans.length :=
          fillTriple_length file e c chans M _ hMlen
        have hMrow2 : ∀ row ∈ fillTriple file e c chans M
            ((max off a - a, min (off + m) b - a), k,
             (max off a - off, min (off + m) b - off)), row.length = b - a :=
          fillTriple_row_length file e c chans M _ (b - a) hMrow
            (by dsimp only; omega) (by dsimp only; omega)
        rw [ih (k + 1) (off + m) _ hMlen2 hMrow2 i j hi hj]
        by_cases hrest : max (off + m) a ≤ a + j ∧ a + j < min (off + m + R * m) b
        · rw [if_pos hrest, if_pos (by omega)]
          have hge : off + m ≤ a + j := by omega
          have h1 : a + j - off = (a + j - (off + m)) + m := by omega
          rw [h1, Nat.add_div_right _ hm, Nat.add_mod_right]
          have h2 : k + 1 + (a + j - (off + m)) / m =
              k + ((a + j - (off + m)) / m + 1) := by omega
          rw [h2]
        · rw [if_neg hrest]
          rw [fillTriple_getD_cell file e c chans M (max off a - a)
            (min (off + m) b - a) k (max off a - off) (min (off + m) b - off)
            i j (b - a) m hMlen hMrow (hrec k i hi) hi (by omega) (by omega)
            (by omega)]
          by_cases hout : max off a ≤ a + j ∧ a + j < min (off + (R + 1) * m) b
          · have hlt : a + j < off + m := by
              by_contra hge2
              push_neg at hge2
              exact hrest ⟨by omega, by omega⟩
            rw [if_pos hout, if_pos (by omega : max off a - a ≤ j ∧ j < min (off + m) b - a)]
            have hx : a + j - off < m := by omega
            rw [Nat.div_eq_of_lt hx, Nat.mod_eq_of_lt hx]
            have hidx : (max off a - off) + (j - (max off a - a)) = a + j - off := by
              omega
            rw [hidx, Nat.add_zero]
          · rw [if_neg hout, if_neg (by omega : ¬(max off a - a ≤ j ∧ j < min (off + m) b - a))]
      · rw [if_neg hlh, List.nil_append]
        rw [ih (k + 1) (off + m) M hMlen hMrow i j hi hj]
        by_cases hrest : max (off + m) a ≤ a + j ∧ a + j < min (off + m + R * m) b
        · rw [if_pos hrest, if_pos (by omega)]
          have hge : off + m ≤ a + j := by omega
          have h1 : a + j - off = (a + j - (off + m)) + m := by omega
          rw [h1, Nat.add_div_right _ hm, Nat.add_mod_right]
          have h2 : k + 1 + (a + j - (off + m)) / m =
              k + ((a + j - (off + m)) / m + 1) := by omega
          rw [h2]
        · rw [if_neg hrest, if_neg (by omega)]


theorem foldl_fill_length (file : List Nat) (e : Edf) (c : Calib)
    (chans : List Nat) (ts : List ((Nat × Nat) × Nat × (Nat × Nat))) :
    ∀ M : List (List (Option Int)), M.length = chans.length →
      (ts.foldl (fillTriple file e c chans) M).length = chans.length := by
  induction ts with
  | nil => intro M hM; simpa
  | cons t ts ih =>
      intro M hM
      rw [List.foldl_cons]
      exact ih _ (fillTriple_length file e c chans M t hM)

theorem foldl_fill_row_length (file : List Nat) (e : Edf) (c : Calib)
    (chans : List Nat) (W : Nat) :
    ∀ ts : List ((Nat × Nat) × Nat × (Nat × Nat)),
      (∀ t ∈ ts, t.1.1 ≤ t.1.2 ∧ t.1.2 ≤ W) →
      ∀ M : List (List (Option Int)), (∀ row ∈ M, row.length = W) →
      ∀ row ∈ ts.foldl (fillTriple file e c chans) M, row.length = W := by
  intro ts
  induction ts with
  | nil => intro hts M hM; simpa
  | cons t ts ih =>
      intro hts M hM
      rw [List.foldl_cons]
      exact ih (fun u hu => hts u (List.mem_cons_of_mem _ hu)) _
        (fillTriple_row_length file e c chans M t W hM
          (hts t (List.mem_cons_self _ _)).1 (hts t (List.mem_cons_self _ _)).2)

theorem return_hdr_inv (h : Hdr) (e : Edf)
    (out : List Nat × PyDateTime × ℚ × List (List Nat) × Int)
    (hret : return_hdr (mkEdf h) = some (e, out)) :
    ∃ mx, h.n_samples_per_record.max? = some mx ∧
      e = ⟨h, some (calibOf h mx)⟩ := by
  unfold return_hdr at hret
  cases hmx : (mkEdf h).hdr.n_samples_per_record.max? with
  | none => rw [hmx] at hret; exact Option.noConfusion hret
  | some mx =>
      rw [hmx] at hret
      dsimp only at hret
      split_ifs at hret with hcond
      injection hret with h1
      obtain ⟨he, -⟩ := Prod.mk.injEq .. |>.mp h1
      exact ⟨mx, hmx, he.symm⟩

theorem return_dat_spec (h : Hdr) (e : Edf)
    (out : List Nat × PyDateTime × ℚ × List (List Nat) × Int)
    (file : List Nat) (chan : List Nat) (a b : Nat) (mx : Int)
    (hret : return_hdr (mkEdf h) = some (e, out))
    (hmx : h.n_samples_per_record.max? = some mx)
    (hchan : ∀ i ∈ chan, i < h.n_samples_per_record.length)
    (hn : ∀ i ∈ chan, 0 < h.n_samples_per_record.getD i 0)
    (hd : ∀ i ∈ chan, h.n_samples_per_record.getD i 0 ∣ mx)
    (hab : a < b) (hbound : b ≤ h.n_records.toNat * mx.toNat) :
    ∃ M, return_dat e file chan a b = .ok M ∧
      M.length = chan.length ∧
      (∀ row ∈ M, row.length = b - a) ∧
      (∀ i j, i < chan.length → j < b - a →
        (M.getD i []).getD j none =
          some (samplePoint file e (calibOf h mx) chan mx.toNat i (a + j))) := by
  obtain ⟨mx2, hmx2, he⟩ := return_hdr_inv h e out hret
  rw [hmx] at hmx2
  injection hmx2 with hmxeq
  subst hmxeq
  subst he
  have hm0 : 0 < mx.toNat := by
    rcases Nat.eq_zero_or_pos mx.toNat with h0 | h0
    · rw [h0, Nat.mul_zero] at hbound; omega
    · exact h0
  set c := calibOf h mx with hc
  set m := mx.toNat with hmdef
  have hrec : ∀ blk i, i < chan.length →
      ((read_record file ⟨h, some c⟩ c blk chan).getD i []).length = m := by
    intro blk i hi
    have hmem : chan.getD i 0 ∈ chan := by
      rw [List.getD_eq_getElem?_getD, List.getElem?_eq_getElem hi]
      exact List.getElem_mem hi
    exact read_record_row_length file ⟨h, some c⟩ c blk chan i hi
      (by show (0 : Int) < mx; omega) (hn _ hmem) (hd _ hmem)
  set ts := select_blocks (List.replicate h.n_records.toNat m) a b with hts
  set init : List (List (Option Int)) :=
    chan.map (fun _ => List.replicate (b - a) none) with hinit
  have hinitlen : init.length = chan.length := by simp [hinit]
  have hinitrow : ∀ row ∈ init, row.length = b - a := by
    intro row hr
    simp only [hinit, List.mem_map] at hr
    obtain ⟨x, -, rfl⟩ := hr
    exact List.length_replicate _ _
  set raw := ts.foldl (fillTriple file ⟨h, some c⟩ c chan) init with hraw
  have hrawlen : raw.length = chan.length :=
    foldl_fill_length file ⟨h, some c⟩ c chan ts init hinitlen
  have hrawrow : ∀ row ∈ raw, row.length = b - a :=
    foldl_fill_row_length file ⟨h, some c⟩ c chan (b - a) ts
      (fun t ht => select_blocks_aux_bounds _ _ _ _ _ t ht) init hinitrow
  have hchan2 : ∀ i ∈ chan, i < h.n_samples_per_record.length := hchan
  have hd2 : ∀ i ∈ chan, 0 < h.n_samples_per_record.getD i 0 ∧
      h.n_samples_per_record.getD i 0 ∣ c.max_smp := by
    intro i hi
    exact ⟨hn i hi, hd i hi⟩
  have hdat : return_dat ⟨h, some c⟩ file chan a b =
      .ok ((raw.zip chan).map (fun p => p.1.map (Option.map (fun v : Int =>
        ((v : ℚ) - c.dig_min.getD p.2 0) * c.gain.getD p.2 0 +
          c.phys_min.getD p.2 0)))) := by
    unfold return_dat
    rw [if_pos hab]
    dsimp only
    rw [hmx]
    dsimp only
    rw [if_pos hchan2, if_pos hd2]
  refine ⟨_, hdat, ?_, ?_, ?_⟩
  · rw [List.length_map, List.length_zip]
    omega
  · intro row hr
    simp only [List.mem_map] at hr
    obtain ⟨p, hp, rfl⟩ := hr
    rw [List.length_map]
    exact hrawrow p.1 (List.of_mem_zip hp).1
  · intro i j hi hj
    have hizip : i < (raw.zip chan).length := by
      rw [List.length_zip]
      omega
    rw [getD_map_lt _ _ i (by simpa using hizip) [] ([], 0),
      getD_zip_of_lt _ _ i [] 0 (by omega) hi]
    dsimp only
    have hrowlen : (raw.getD i []).length = b - a := by
      apply hrawrow
      rw [List.getD_eq_getElem?_getD, List.getElem?_eq_getElem (by omega : i < raw.length)]
      exact List.getElem_mem _
    rw [getD_map_lt _ _ j (by omega) none none]
    have hcell := foldl_fill_getD file ⟨h, some c⟩ c chan m hm0 hrec a b
      h.n_records.toNat 0 0 init hinitlen hinitrow i j hi hj
    rw [hraw, hts, select_blocks, hcell, if_pos (by omega)]
    simp only [Nat.zero_add, Nat.sub_zero]
    rfl

theorem getElem?_eq_some_getD {α : Type} (l : List α) (d : α) (j : Nat)
    (hj : j < l.length) : l[j]? = some (l.getD j d) := by
  rw [List.getD_eq_getElem?_getD, List.getElem?_eq_getElem hj]
  rfl

/-- Claim C3: for a header accepted by `return_hdr`, valid channel
indices, per-record counts that are positive and divide the maximal one,
and a request 0 <= begsam < endsam <= n_records * max_smp, `return_dat`
returns a matrix of shape len(chan) x (endsam - begsam) in which every
cell is populated (no NaN remains; `none` models NaN). -/
theorem c3_shape_no_nan (h : Hdr) (e : Edf)
    (out : List Nat × PyDateTime × ℚ × List (List Nat) × Int)
    (file : List Nat) (chan : List Nat) (a b : Nat) (mx : Int)
    (hret : return_hdr (mkEdf h) = some (e, out))
    (hmx : h.n_samples_per_record.max? = some mx)
    (hchan : ∀ i ∈ chan, i < h.n_samples_per_record.length)
    (hn : ∀ i ∈ chan, 0 < h.n_samples_per_record.getD i 0)
    (hd : ∀ i ∈ chan, h.n_samples_per_record.getD i 0 ∣ mx)
    (hab : a < b) (hbound : b ≤ h.n_records.toNat * mx.toNat) :
    ∃ M, return_dat e file chan a b = .ok M ∧
      M.length = chan.length ∧
      (∀ row ∈ M, row.length = b - a) ∧
      (∀ i j, i < chan.length → j < b - a →
        ((M.getD i []).getD j none).isSome) := by
  obtain ⟨M, h1, h2, h3, h4⟩ :=
    return_dat_spec h e out file chan a b mx hret hmx hchan hn hd hab hbound
  refine ⟨M, h1, h2, h3, fun i j hi hj => ?_⟩
  rw [h4 i j hi hj]
  rfl

/-- Witness for C3 on a concrete single-channel header. -/
theorem c3_shape_no_nan_witness :
    ∃ M, return_dat ⟨c10hdr, some (calibOf c10hdr 4)⟩ [] [0] 0 4 = .ok M ∧
      M.length = [0].length ∧
      (∀ row ∈ M, row.length = 4 - 0) ∧
      (∀ i j, i < [0].length → j < 4 - 0 →
        ((M.getD i []).getD j none).isSome) :=
  c3_shape_no_nan c10hdr ⟨c10hdr, some (calibOf c10hdr 4)⟩
    ([], ⟨2010, 1, 1, 0, 0, 0⟩, 4, [[]], 4) [] [0] 0 4 4
    (by decide) (by decide) (by decide) (by decide) (by decide)
    (by decide) (by decide)

/-- Claim C5: under the same well-formedness conditions as C3, reading
[s, t) and [t, u) and concatenating the two matrices along the sample
axis gives exactly the matrix of reading [s, u). -/
theorem c5_concat (h : Hdr) (e : Edf)
    (out : List Nat × PyDateTime × ℚ × List (List Nat) × Int)
    (file : List Nat) (chan : List Nat) (s t u : Nat) (mx : Int)
    (hret : return_hdr (mkEdf h) = some (e, out))
    (hmx : h.n_samples_per_record.max? = some mx)
    (hchan : ∀ i ∈ chan, i < h.n_samples_per_record.length)
    (hn : ∀ i ∈ chan, 0 < h.n_samples_per_record.getD i 0)
    (hd : ∀ i ∈ chan, h.n_samples_per_record.getD i 0 ∣ mx)
    (hst : s < t) (htu : t < u)
    (hbound : u ≤ h.n_records.toNat * mx.toNat) :
    ∃ M1 M2 M3,
      return_dat e file chan s t = .ok M1 ∧
      return_dat e file chan t u = .ok M2 ∧
      return_dat e file chan s u = .ok M3 ∧
      List.zipWith (fun r1 r2 => r1 ++ r2) M1 M2 = M3 := by
  obtain ⟨M1, e1, l1, r1, c1⟩ :=
    return_dat_spec h e out file chan s t mx hret hmx hchan hn hd hst (by omega)
  obtain ⟨M2, e2, l2, r2, c2⟩ :=
    return_dat_spec h e out file chan t u mx hret hmx hchan hn hd htu hbound
  obtain ⟨M3, e3, l3, r3, c3⟩ :=
    return_dat_spec h e out file chan s u mx hret hmx hchan hn hd
      (by omega) hbound
  refine ⟨M1, M2, M3, e1, e2, e3, ?_⟩
  apply List.ext_getElem?
  intro i
  by_cases hi : i < chan.length
  · have hi1 : i < M1.length := by omega
    have hi2 : i < M2.length := by omega
    have hi3 : i < M3.length := by omega
    have hzlen : i < (List.zipWith (fun r1 r2 => r1 ++ r2) M1 M2).length := by
      rw [List.length_zipWith]
      omega
    rw [List.getElem?_zipWith, List.getElem?_eq_getElem hi1,
      List.getElem?_eq_getElem hi2, List.getElem?_eq_getElem hi3]
    dsimp only
    congr 1
    have hM1i : M1.getD i [] = M1[i] := by
      rw [List.getD_eq_getElem?_getD, List.getElem?_eq_getElem hi1]
      rfl
    have hM2i : M2.getD i [] = M2[i] := by
      rw [List.getD_eq_getElem?_getD, List.getElem?_eq_getElem hi2]
      rfl
    have hM3i : M3.getD i [] = M3[i] := by
      rw [List.getD_eq_getElem?_getD, List.getElem?_eq_getElem hi3]
      rfl
    have hL1 : (M1[i]).length = t - s := r1 _ (List.getElem_mem hi1)
    have hL2 : (M2[i]).length = u - t := r2 _ (List.getElem_mem hi2)
    have hL3 : (M3[i]).length = u - s := r3 _ (List.getElem_mem hi3)
    apply List.ext_getElem?
    intro j
    rw [List.getElem?_append]
    by_cases hj1 : j < t - s
    · rw [if_pos (by omega), getElem?_eq_some_getD _ none j (by omega),
        getElem?_eq_some_getD _ none j (by omega : j < (M3[i]).length)]
      have hc1 : (M1[i]).getD j none =
          some (samplePoint file e (calibOf h mx) chan mx.toNat i (s + j)) := by
        rw [← hM1i]; exact c1 i j hi hj1
      have hc3 : (M3[i]).getD j none =
          some (samplePoint file e (calibOf h mx) chan mx.toNat i (s + j)) := by
        rw [← hM3i]; exact c3 i j hi (by omega)
      rw [hc1, hc3]
    · rw [if_neg (by omega), hL1]
      by_cases hj2 : j < u - s
      · rw [getElem?_eq_some_getD _ none (j - (t - s))
            (by omega : j - (t - s) < (M2[i]).length),
          getElem?_eq_some_getD _ none j (by omega : j < (M3[i]).length)]
        have hc2 : (M2[i]).getD (j - (t - s)) none =
            some (samplePoint file e (calibOf h mx) chan mx.toNat i
              (t + (j - (t - s)))) := by
          rw [← hM2i]; exact c2 i (j - (t - s)) hi (by omega)
        have harg : t + (j - (t - s)) = s + j := by omega
        rw [harg] at hc2
        have hc3 : (M3[i]).getD j none =
            some (samplePoint file e (calibOf h mx) chan mx.toNat i (s + j)) := by
          rw [← hM3i]; exact c3 i j hi hj2
        rw [hc2, hc3]
      · rw [List.getElem?_eq_none (by omega : (M2[i]).length ≤ j - (t - s)),
          List.getElem?_eq_none (by omega : (M3[i]).length ≤ j)]
  · have hzl : (List.zipWith (fun r1 r2 => r1 ++ r2) M1 M2).length ≤ i := by
      rw [List.length_zipWith]
      omega
    rw [List.getElem?_eq_none hzl, List.getElem?_eq_none (by omega : M3.length ≤ i)]

/-- Witness for C5 on a concrete single-channel header. -/
theorem c5_concat_witness :
    ∃ M1 M2 M3,
      return_dat ⟨c10hdr, some (calibOf c10hdr 4)⟩ [] [0] 0 2 = .ok M1 ∧
      return_dat ⟨c10hdr, some (calibOf c10hdr 4)⟩ [] [0] 2 4 = .ok M2 ∧
      return_dat ⟨c10hdr, some (calibOf c10hdr 4)⟩ [] [0] 0 4 = .ok M3 ∧
      List.zipWith (fun r1 r2 => r1 ++ r2) M1 M2 = M3 :=
  c5_concat c10hdr ⟨c10hdr, some (calibOf c10hdr 4)⟩
    ([], ⟨2010, 1, 1, 0, 0, 0⟩, 4, [[]], 4) [] [0] 0 2 4 4
    (by decide) (by decide) (by decide) (by decide) (by decide)
    (by decide) (by decide) (by decide)

end Wonambi
